import Mathlib

/-!
Verification of the `ratelim` Go module: a shallow embedding of its
concurrency-safe keyed-limiter registry (`syncmap.SyncMap`), the origin key
derivation (`Origin`), and the per-key rate-limiting round tripper
(`PerKeyRoundTripper`), together with theorems settling the specification
claims against that embedding.

The Go `map[K]V` backing store is modelled as an association list with at
most one binding per key (the well-formedness predicate `SyncMap.WF`); each
registry method is translated from the source, keeping the source's
optimistic read / locked re-check structure, which in this sequential model
re-reads the same state.
-/

namespace Ratelim

/-- Model of `syncmap.SyncMap[K, V]`: the `wrapped map[K]V` is an
association list of key/value bindings. -/
structure SyncMap (K V : Type) where
  entries : List (K × V)
deriving DecidableEq

namespace SyncMap

/-- `syncmap.New`: a `SyncMap` wrapping a freshly allocated empty map. -/
def New {K V : Type} : SyncMap K V := ⟨[]⟩

/-- Go map read `m.wrapped[key]`: first binding for the key, if any. -/
def lookupKey {K V : Type} [DecidableEq K] : List (K × V) → K → Option V
  | [], _ => none
  | e :: es, k => if k = e.1 then some e.2 else lookupKey es k

/-- Go map write `m.wrapped[key] = value`: replace the binding in place, or
append a fresh one. -/
def insertKey {K V : Type} [DecidableEq K] : List (K × V) → K → V → List (K × V)
  | [], k, v => [(k, v)]
  | e :: es, k, v => if k = e.1 then (k, v) :: es else e :: insertKey es k v

/-- Go map removal `delete(m.wrapped, key)`: drop every binding for the key. -/
def eraseKey {K V : Type} [DecidableEq K] (es : List (K × V)) (k : K) : List (K × V) :=
  es.filter (fun e => decide (e.1 ≠ k))

/-- `SyncMap.Load`: the value stored for a key, if present. The Go
`(value, ok)` pair is folded into an `Option`. -/
def Load {K V : Type} [DecidableEq K] (m : SyncMap K V) (k : K) : Option V :=
  lookupKey m.entries k

/-- `SyncMap.Swap`: install `v` for `k`, returning the previous value if any. -/
def Swap {K V : Type} [DecidableEq K] (m : SyncMap K V) (k : K) (v : V) :
    Option V × SyncMap K V :=
  (lookupKey m.entries k, ⟨insertKey m.entries k v⟩)

/-- `SyncMap.Store`: delegates to `Swap`, discarding its results. -/
def Store {K V : Type} [DecidableEq K] (m : SyncMap K V) (k : K) (v : V) : SyncMap K V :=
  (m.Swap k v).2

/-- `SyncMap.LoadAndDelete`: optimistic `Load`, then (under the lock)
re-read and delete. In this sequential model the locked re-read sees the
same state as the optimistic read. -/
def LoadAndDelete {K V : Type} [DecidableEq K] (m : SyncMap K V) (k : K) :
    Option V × SyncMap K V :=
  match m.Load k with
  | none => (none, m)
  | some _ => (lookupKey m.entries k, ⟨eraseKey m.entries k⟩)

/-- `SyncMap.Delete`: delegates to `LoadAndDelete`, discarding its results. -/
def Delete {K V : Type} [DecidableEq K] (m : SyncMap K V) (k : K) : SyncMap K V :=
  (m.LoadAndDelete k).2

/-- `SyncMap.LoadOrStore`: optimistic `Load`; if absent, re-check under the
lock and install `v`. Returns `(actual, loaded, final state)`. -/
def LoadOrStore {K V : Type} [DecidableEq K] (m : SyncMap K V) (k : K) (v : V) :
    V × Bool × SyncMap K V :=
  match m.Load k with
  | some a => (a, true, m)
  | none =>
    match lookupKey m.entries k with
    | some a => (a, true, m)
    | none => (v, false, ⟨insertKey m.entries k v⟩)

/-- `SyncMap.CompareAndSwap`: the source compares `any(value) != any(old)`
where `value` is the Go zero value of `V` when the key is absent (the
`loaded` flag is discarded); the zero value is modelled by `default`. -/
def CompareAndSwap {K V : Type} [DecidableEq K] [DecidableEq V] [Inhabited V]
    (m : SyncMap K V) (k : K) (old nv : V) : Bool × SyncMap K V :=
  if (m.Load k).getD default ≠ old then (false, m)
  else if (lookupKey m.entries k).getD default ≠ old then (false, m)
  else (true, ⟨insertKey m.entries k nv⟩)

/-- `SyncMap.CompareAndDelete`: unlike `CompareAndSwap`, the source checks
the `loaded` flag, so an absent key always yields `false`. -/
def CompareAndDelete {K V : Type} [DecidableEq K] [DecidableEq V]
    (m : SyncMap K V) (k : K) (old : V) : Bool × SyncMap K V :=
  match m.Load k with
  | none => (false, m)
  | some a =>
    if a ≠ old then (false, m)
    else
      match lookupKey m.entries k with
      | none => (false, m)
      | some b => if b ≠ old then (false, m) else (true, ⟨eraseKey m.entries k⟩)

/-- `SyncMap.Keys`: a materialized snapshot of the keys. -/
def Keys {K V : Type} (m : SyncMap K V) : List K :=
  m.entries.map Prod.fst

/-- `SyncMap.Clear`: reassign the backing store to a fresh empty map. -/
def Clear {K V : Type} (m : SyncMap K V) : SyncMap K V := ⟨[]⟩

/-- The loop body of `SyncMap.Range`: iterate over a `Keys` snapshot,
re-`Load` each key through `loadf` (the per-step read of the live map, which
may no longer hold the key), skip keys that went missing, and stop after the
first visit on which `f` returns `false`. The returned list records the
calls made to `f`, the observable of `Range`. -/
def rangeVisits {K V : Type} (loadf : K → Option V) (f : K → V → Bool) :
    List K → List (K × V)
  | [] => []
  | k :: ks =>
    match loadf k with
    | none => rangeVisits loadf f ks
    | some v => if f k v then (k, v) :: rangeVisits loadf f ks else [(k, v)]

/-- `SyncMap.Range` on a map that is not mutated during the call: every
per-step read goes through `m.Load`. -/
def Range {K V : Type} [DecidableEq K] (m : SyncMap K V) (f : K → V → Bool) :
    List (K × V) :=
  rangeVisits m.Load f m.Keys

/-- Well-formedness: a Go map holds at most one binding per key. -/
def WF {K V : Type} (m : SyncMap K V) : Prop :=
  (m.entries.map Prod.fst).Nodup

instance {K V : Type} [DecidableEq K] (m : SyncMap K V) : Decidable m.WF :=
  inferInstanceAs (Decidable ((m.entries.map Prod.fst).Nodup))

end SyncMap

/-- One registry operation, for the registry's operation step relation. -/
inductive MapOp (K V : Type) where
  | loadOp (k : K)
  | storeOp (k : K) (v : V)
  | swapOp (k : K) (v : V)
  | deleteOp (k : K)
  | loadAndDeleteOp (k : K)
  | loadOrStoreOp (k : K) (v : V)
  | compareAndSwapOp (k : K) (old nv : V)
  | compareAndDeleteOp (k : K) (old : V)
  | clearOp

/-- State effect of one registry operation. -/
def MapOp.step {K V : Type} [DecidableEq K] [DecidableEq V] [Inhabited V] :
    MapOp K V → SyncMap K V → SyncMap K V
  | .loadOp _, m => m
  | .storeOp k v, m => m.Store k v
  | .swapOp k v, m => (m.Swap k v).2
  | .deleteOp k, m => m.Delete k
  | .loadAndDeleteOp k, m => (m.LoadAndDelete k).2
  | .loadOrStoreOp k v, m => (m.LoadOrStore k v).2.2
  | .compareAndSwapOp k old nv, m => (m.CompareAndSwap k old nv).2
  | .compareAndDeleteOp k old, m => (m.CompareAndDelete k old).2
  | .clearOp, m => m.Clear

/-- Whether an operation explicitly overwrites or removes the binding for
`k` (or clears the registry): `Store`, `Swap`, `CompareAndSwap` at `k`;
`Delete`, `LoadAndDelete`, `CompareAndDelete` at `k`; `Clear`. -/
def MapOp.mutatesKey {K V : Type} [DecidableEq K] : MapOp K V → K → Bool
  | .loadOp _, _ => false
  | .loadOrStoreOp _ _, _ => false
  | .storeOp k2 _, k => decide (k2 = k)
  | .swapOp k2 _, k => decide (k2 = k)
  | .deleteOp k2, k => decide (k2 = k)
  | .loadAndDeleteOp k2, k => decide (k2 = k)
  | .compareAndSwapOp k2 _ _, k => decide (k2 = k)
  | .compareAndDeleteOp k2 _, k => decide (k2 = k)
  | .clearOp, _ => true

/-- Model of `url.URL` at the granularity `Origin` reads it: `Scheme` (as
lower-cased by `url.Parse`), `Hostname()` and `Port()` (empty when the URL
carries no explicit port). -/
structure URL where
  scheme : String
  hostname : String
  port : String

/-- The `map[string]string{"http": "80", "https": "443"}` lookup in `Origin`. -/
def defaultPortFor (scheme : String) : Option String :=
  if scheme = "http" then some "80"
  else if scheme = "https" then some "443"
  else none

/-- `ratelim.Origin`: lower-case the host, strip leading zeros from the
port, and omit the port when empty or equal to the scheme's default. -/
def Origin (u : URL) : String :=
  let host := u.hostname.toLower
  let port := u.port.dropWhile (fun c => c == '0')
  if port = "" then u.scheme ++ "://" ++ host
  else
    match defaultPortFor u.scheme with
    | some dp =>
      if port = dp then u.scheme ++ "://" ++ host
      else u.scheme ++ "://" ++ host ++ ":" ++ port
    | none => u.scheme ++ "://" ++ host ++ ":" ++ port

/-- Model of `*rate.Limiter` at the granularity the registry uses it: the
limit and burst it was constructed with. `L` abstracts `rate.Limit`. -/
structure RateLimiter (L : Type) where
  limit : L
  burst : Int
deriving DecidableEq

/-- `rate.NewLimiter(limit, burst)`. -/
def NewLimiter {L : Type} (l : L) (b : Int) : RateLimiter L := ⟨l, b⟩

/-- Model of `ratelim.PerKeyRoundTripper[K]`: mutable default limit/burst,
the key-derivation function, and the limiter registry. `Req` abstracts
`*http.Request`. -/
structure PerKeyRoundTripper (Req K L : Type) where
  defaultLimit : L
  defaultBurst : Int
  keyFunc : Req → K
  limiters : SyncMap K (RateLimiter L)

namespace PerKeyRoundTripper

/-- `PerKeyRoundTripper.LimiterDefaults`. -/
def LimiterDefaults {Req K L : Type} (t : PerKeyRoundTripper Req K L) : L × Int :=
  (t.defaultLimit, t.defaultBurst)

/-- `PerKeyRoundTripper.SetLimiterDefaults`. -/
def SetLimiterDefaults {Req K L : Type} (t : PerKeyRoundTripper Req K L)
    (l : L) (b : Int) : PerKeyRoundTripper Req K L :=
  { t with defaultLimit := l, defaultBurst := b }

/-- `PerKeyRoundTripper.Key`. -/
def Key {Req K L : Type} (t : PerKeyRoundTripper Req K L) (req : Req) : K :=
  t.keyFunc req

/-- `PerKeyRoundTripper.Limiter`: `LoadOrStore` of a freshly constructed
limiter with the current defaults; returns the limiter that ends up
registered, together with the updated state. -/
def Limiter {Req K L : Type} [DecidableEq K] (t : PerKeyRoundTripper Req K L)
    (req : Req) : RateLimiter L × PerKeyRoundTripper Req K L :=
  let r := t.limiters.LoadOrStore (t.Key req)
    (NewLimiter t.LimiterDefaults.1 t.LimiterDefaults.2)
  (r.1, { t with limiters := r.2.2 })

end PerKeyRoundTripper

/-- One structured trace record, with the fields `RoundTrip` logs. -/
structure TraceRecord (K : Type) where
  key : K
  waitMs : Int
  respMs : Int
  totalMs : Int
  method : String
  url : String
deriving DecidableEq

/-- Observable outcome of one `RoundTrip` call: the returned response and
error, whether the underlying `RoundTripper` was invoked, and the trace
record emitted, if any. -/
structure RoundTripOutcome (Resp Err K : Type) where
  resp : Option Resp
  err : Option Err
  transportCalled : Bool
  trace : Option (TraceRecord K)
deriving DecidableEq

/-- `PerKeyRoundTripper.RoundTrip`: obtain the limiter; if its `Wait`
errored (`waitErr`), return `(nil, err)` before the logging defer is even
registered; otherwise call the underlying transport and, via the defer,
emit one record unless the logger is nil or writes to `io.Discard`.
Elapsed times are abstracted by `waitMs` (measured around the wait) and
`totalMs` (measured over the whole call); the record's response time is
their difference, as in the source. -/
def RoundTrip {Req K L Resp Err : Type} [DecidableEq K]
    (t : PerKeyRoundTripper Req K L) (req : Req)
    (waitErr : Option Err) (hasLogger writerDiscard : Bool)
    (waitMs totalMs : Int)
    (transportResp : Option Resp) (transportErr : Option Err)
    (method url : String) :
    RoundTripOutcome Resp Err K × PerKeyRoundTripper Req K L :=
  let r := t.Limiter req
  match waitErr with
  | some e => (⟨none, some e, false, none⟩, r.2)
  | none =>
    let trace :=
      if hasLogger && !writerDiscard then
        some ⟨t.Key req, waitMs, totalMs - waitMs, totalMs, method, url⟩
      else none
    (⟨transportResp, transportErr, true, trace⟩, r.2)

/-- Reading an association list after a write: the written key sees the new
value, every other key is untouched. -/
theorem lookupKey_insertKey {K V : Type} [DecidableEq K]
    (es : List (K × V)) (k k2 : K) (v : V) :
    SyncMap.lookupKey (SyncMap.insertKey es k v) k2 =
      if k2 = k then some v else SyncMap.lookupKey es k2 := by
  induction es with
  | nil =>
    by_cases h : k2 = k <;> simp [SyncMap.insertKey, SyncMap.lookupKey, h]
  | cons e es ih =>
    by_cases he : k = e.1
    · by_cases h2 : k2 = k
      · simp [SyncMap.insertKey, SyncMap.lookupKey, he, h2]
      · have h2e : ¬ k2 = e.1 := fun hc => h2 (hc.trans he.symm)
        simp [SyncMap.insertKey, SyncMap.lookupKey, he, h2, h2e]
    · by_cases h2e : k2 = e.1
      · have h2 : ¬ k2 = k := fun hc => he (hc ▸ h2e)
        have he2 : ¬ e.1 = k := fun hc => he hc.symm
        simp [SyncMap.insertKey, SyncMap.lookupKey, he, h2, h2e, he2]
      · simp [SyncMap.insertKey, SyncMap.lookupKey, he, h2e, ih]

/-- Reading an association list after an erasure: the erased key is gone,
every other key is untouched. -/
theorem lookupKey_eraseKey {K V : Type} [DecidableEq K]
    (es : List (K × V)) (k k2 : K) :
    SyncMap.lookupKey (SyncMap.eraseKey es k) k2 =
      if k2 = k then none else SyncMap.lookupKey es k2 := by
  induction es with
  | nil =>
    by_cases h : k2 = k <;> simp [SyncMap.eraseKey, SyncMap.lookupKey, h]
  | cons e es ih =>
    by_cases he : e.1 = k
    · have h2 : k2 = k → ¬ k2 = e.1 ∨ True := fun _ => Or.inr trivial
      by_cases hk2 : k2 = k
      · simp [SyncMap.eraseKey, List.filter_cons, he] at ih ⊢
        simpa [hk2] using ih
      · have h2e : ¬ k2 = e.1 := fun hc => hk2 (hc.trans he)
        simp [SyncMap.eraseKey, List.filter_cons, he, SyncMap.lookupKey, h2e] at ih ⊢
        simpa [hk2] using ih
    · by_cases h2e : k2 = e.1
      · have hk2 : ¬ k2 = k := fun hc => he (h2e ▸ hc)
        simp [SyncMap.eraseKey, List.filter_cons, he, SyncMap.lookupKey, h2e, hk2]
      · simp [SyncMap.eraseKey, List.filter_cons, he, SyncMap.lookupKey, h2e] at ih ⊢
        exact ih

/-- A key that `lookupKey` resolves is among the listed keys. -/
theorem mem_map_fst_of_lookupKey {K V : Type} [DecidableEq K]
    (es : List (K × V)) (k : K) (v : V)
    (h : SyncMap.lookupKey es k = some v) : k ∈ es.map Prod.fst := by
  induction es with
  | nil => simp [SyncMap.lookupKey] at h
  | cons e es ih =>
    by_cases he : k = e.1
    · simp [he]
    · simp [SyncMap.lookupKey, he] at h
      simp [ih h]

/-- The keys visited by the `Range` loop form a sublist of the snapshot it
iterates over. -/
theorem rangeVisits_map_fst_sublist {K V : Type} (loadf : K → Option V)
    (f : K → V → Bool) (ks : List K) :
    ((SyncMap.rangeVisits loadf f ks).map Prod.fst).Sublist ks := by
  induction ks with
  | nil => simp [SyncMap.rangeVisits]
  | cons k ks ih =>
    cases hl : loadf k with
    | none =>
      simp only [SyncMap.rangeVisits, hl]
      exact ih.cons k
    | some v =>
      by_cases hf : f k v = true
      · simp only [SyncMap.rangeVisits, hl, hf, if_pos, List.map_cons]
        exact ih.cons₂ k
      · simp only [SyncMap.rangeVisits, hl, hf, if_neg, List.map_cons, List.map_nil]
        exact (List.nil_sublist ks).cons₂ k

/-- With a visitor that never stops, the visited pairs are exactly the keys
of the snapshot that still resolve, each with its resolved value. -/
theorem mem_rangeVisits_true {K V : Type} (loadf : K → Option V)
    (ks : List K) (k : K) (v : V) :
    (k, v) ∈ SyncMap.rangeVisits loadf (fun _ _ => true) ks ↔
      loadf k = some v ∧ k ∈ ks := by
  induction ks with
  | nil => simp [SyncMap.rangeVisits]
  | cons k2 ks ih =>
    cases hl : loadf k2 with
    | none =>
      simp only [SyncMap.rangeVisits, hl, ih, List.mem_cons]
      constructor
      · rintro ⟨h1, h2⟩
        exact ⟨h1, Or.inr h2⟩
      · rintro ⟨h1, h2 | h2⟩
        · rw [h2] at h1
          rw [h1] at hl
          cases hl
        · exact ⟨h1, h2⟩
    | some v2 =>
      have hstep : SyncMap.rangeVisits loadf (fun _ _ => true) (k2 :: ks) =
          (k2, v2) :: SyncMap.rangeVisits loadf (fun _ _ => true) ks := by
        simp [SyncMap.rangeVisits, hl]
      rw [hstep]
      simp only [List.mem_cons, ih, Prod.mk.injEq]
      constructor
      · rintro (⟨h1, h2⟩ | ⟨h1, h2⟩)
        · subst h1; subst h2
          exact ⟨hl, Or.inl rfl⟩
        · exact ⟨h1, Or.inr h2⟩
      · rintro ⟨h1, h2 | h2⟩
        · subst h2
          rw [h1] at hl
          cases hl
          exact Or.inl ⟨rfl, rfl⟩
        · exact Or.inr ⟨h1, h2⟩

/-- A key the per-step read no longer resolves (removed before it was
reached) is never visited. -/
theorem not_mem_rangeVisits_of_none {K V : Type} (loadf : K → Option V)
    (f : K → V → Bool) (k : K) (h : loadf k = none) (ks : List K) :
    k ∉ (SyncMap.rangeVisits loadf f ks).map Prod.fst := by
  induction ks with
  | nil => simp [SyncMap.rangeVisits]
  | cons k2 ks ih =>
    cases hl : loadf k2 with
    | none => simpa [SyncMap.rangeVisits, hl] using ih
    | some v2 =>
      have hne : k ≠ k2 := by
        intro hc
        rw [hc, hl] at h
        cases h
      by_cases hf : f k2 v2 = true
      · simp only [SyncMap.rangeVisits, hl]
        rw [if_pos hf]
        simp only [List.map_cons, List.mem_cons]
        rintro (hc | hc)
        · exact hne hc
        · exact ih hc
      · simp only [SyncMap.rangeVisits, hl]
        rw [if_neg hf]
        simpa using hne

/-- Every visit except possibly the last returned the continue signal: the
loop stops as soon as the visitor returns `false`. -/
theorem rangeVisits_dropLast_true {K V : Type} (loadf : K → Option V)
    (f : K → V → Bool) (ks : List K) :
    ∀ p ∈ (SyncMap.rangeVisits loadf f ks).dropLast, f p.1 p.2 = true := by
  induction ks with
  | nil => simp [SyncMap.rangeVisits]
  | cons k ks ih =>
    cases hl : loadf k with
    | none => simpa [SyncMap.rangeVisits, hl] using ih
    | some v =>
      by_cases hf : f k v = true
      · simp only [SyncMap.rangeVisits, hl]
        rw [if_pos hf]
        cases hr : SyncMap.rangeVisits loadf f ks with
        | nil => simp
        | cons q qs =>
          rw [List.dropLast_cons₂]
          intro p hp
          rcases List.mem_cons.mp hp with hc | hc
          · subst hc; exact hf
          · exact ih p (hr ▸ hc)
      · simp only [SyncMap.rangeVisits, hl]
        rw [if_neg hf]
        simp

/-- `LoadOrStore` on a present key returns the stored value, reports it as
loaded, and leaves the map unchanged. -/
theorem loadOrStore_eq_of_some {K V : Type} [DecidableEq K]
    (m : SyncMap K V) (k : K) (v a : V) (h : m.Load k = some a) :
    m.LoadOrStore k v = (a, true, m) := by
  simp [SyncMap.LoadOrStore, h]

/-- `LoadOrStore` on an absent key installs the given value. -/
theorem loadOrStore_eq_of_none {K V : Type} [DecidableEq K]
    (m : SyncMap K V) (k : K) (v : V) (h : m.Load k = none) :
    m.LoadOrStore k v = (v, false, ⟨SyncMap.insertKey m.entries k v⟩) := by
  have h2 : SyncMap.lookupKey m.entries k = none := h
  simp [SyncMap.LoadOrStore, h, h2]

/-- Claim C2: if `k` is present with value `a`, `LoadOrStore k v` returns
`(a, true)` and leaves the map unchanged; if `k` is absent it installs `v`
under `k` (other keys untouched) and returns `(v, false)`. -/
theorem loadOrStore_spec {K V : Type} [DecidableEq K]
    (m : SyncMap K V) (k : K) (v : V) :
    (∀ a, m.Load k = some a → m.LoadOrStore k v = (a, true, m)) ∧
    (m.Load k = none →
      m.LoadOrStore k v = (v, false, ⟨SyncMap.insertKey m.entries k v⟩) ∧
      (m.LoadOrStore k v).2.2.Load k = some v ∧
      ∀ k2, k2 ≠ k → (m.LoadOrStore k v).2.2.Load k2 = m.Load k2) := by
  constructor
  · intro a h
    simp [SyncMap.LoadOrStore, h]
  · intro h
    have h2 : SyncMap.lookupKey m.entries k = none := h
    refine ⟨by simp [SyncMap.LoadOrStore, h, h2], ?_, ?_⟩
    · simp [SyncMap.LoadOrStore, h, h2, SyncMap.Load, lookupKey_insertKey]
    · intro k2 hne
      simp [SyncMap.LoadOrStore, h, h2, SyncMap.Load, lookupKey_insertKey, hne]

/-- Closed instance of `loadOrStore_spec` at concrete inputs. -/
theorem loadOrStore_spec_witness :
    (SyncMap.mk [(1, 10)] : SyncMap Nat Nat).Load 1 = some 10 ∧
    (SyncMap.mk [(1, 10)] : SyncMap Nat Nat).LoadOrStore 1 7 =
      (10, true, SyncMap.mk [(1, 10)]) ∧
    (SyncMap.mk [(1, 10)] : SyncMap Nat Nat).Load 2 = none ∧
    (SyncMap.mk [(1, 10)] : SyncMap Nat Nat).LoadOrStore 2 7 =
      (7, false, SyncMap.mk [(1, 10), (2, 7)]) := by
  refine ⟨by decide, (loadOrStore_spec (SyncMap.mk [(1, 10)]) 1 7).1 10 (by decide),
    by decide, ?_⟩
  have h := ((loadOrStore_spec (SyncMap.mk [(1, 10)]) 2 7).2 (by decide)).1
  simpa [SyncMap.insertKey] using h

/-- Claim C7: immediately after `Clear`, `Keys` is empty and `Load` is
not-found for every key, including every previously-present key. -/
theorem clear_spec {K V : Type} [DecidableEq K] (m : SyncMap K V) :
    m.Clear.Keys = [] ∧ ∀ k, m.Clear.Load k = none := by
  exact ⟨rfl, fun k => rfl⟩

/-- Claim C10: `Store` is `Swap` with its results discarded and `Delete` is
`LoadAndDelete` with its results discarded; observationally, the final
state binds `k` as the operation dictates and leaves every other key
untouched. -/
theorem store_delete_delegation_spec {K V : Type} [DecidableEq K]
    (m : SyncMap K V) (k : K) (v : V) :
    m.Store k v = (m.Swap k v).2 ∧
    m.Delete k = (m.LoadAndDelete k).2 ∧
    (∀ k2, (m.Store k v).Load k2 = if k2 = k then some v else m.Load k2) ∧
    (∀ k2, (m.Delete k).Load k2 = if k2 = k then none else m.Load k2) := by
  refine ⟨rfl, rfl, ?_, ?_⟩
  · intro k2
    simp [SyncMap.Store, SyncMap.Swap, SyncMap.Load, lookupKey_insertKey]
  · intro k2
    cases h : m.Load k with
    | none =>
      simp only [SyncMap.Delete, SyncMap.LoadAndDelete, h]
      by_cases hk : k2 = k
      · subst hk
        simp [h]
      · simp [hk]
    | some a =>
      have h2 : SyncMap.lookupKey m.entries k = some a := h
      simp [SyncMap.Delete, SyncMap.LoadAndDelete, h, h2, SyncMap.Load, lookupKey_eraseKey]

/-- Claim C4: when the limiter's `Wait` errors (cancellation or deadline),
`RoundTrip` returns a nil response with that error, never invokes the
underlying `RoundTripper`, and emits no trace record. -/
theorem roundTrip_cancelled_spec {Req K L Resp Err : Type} [DecidableEq K]
    (t : PerKeyRoundTripper Req K L) (req : Req) (e : Err)
    (hasLogger writerDiscard : Bool) (waitMs totalMs : Int)
    (tr : Option Resp) (te : Option Err) (method url : String) :
    (RoundTrip t req (some e) hasLogger writerDiscard waitMs totalMs
        tr te method url).1.resp = none ∧
    (RoundTrip t req (some e) hasLogger writerDiscard waitMs totalMs
        tr te method url).1.err = some e ∧
    (RoundTrip t req (some e) hasLogger writerDiscard waitMs totalMs
        tr te method url).1.transportCalled = false ∧
    (RoundTrip t req (some e) hasLogger writerDiscard waitMs totalMs
        tr te method url).1.trace = none := by
  exact ⟨rfl, rfl, rfl, rfl⟩

/-- Claim C9: one completed (non-cancelled) dispatch emits exactly one
record, holding the derived key, the wait time, the transport processing
time (total minus wait), the total time, and the request's method and URL;
no record is emitted when the logger is nil or writes to `io.Discard`, nor
on a cancelled dispatch. -/
theorem roundTrip_trace_spec {Req K L Resp Err : Type} [DecidableEq K]
    (t : PerKeyRoundTripper Req K L) (req : Req)
    (waitMs totalMs : Int) (tr : Option Resp) (te : Option Err)
    (method url : String) :
    ((RoundTrip t req (none : Option Err) true false waitMs totalMs
        tr te method url).1.trace =
      some ⟨t.Key req, waitMs, totalMs - waitMs, totalMs, method, url⟩) ∧
    (∀ wd, (RoundTrip t req (none : Option Err) false wd waitMs totalMs
        tr te method url).1.trace = none) ∧
    (∀ hl, (RoundTrip t req (none : Option Err) hl true waitMs totalMs
        tr te method url).1.trace = none) ∧
    (∀ e : Err, ∀ hl wd, (RoundTrip t req (some e) hl wd waitMs totalMs
        tr te method url).1.trace = none) := by
  refine ⟨by simp [RoundTrip], fun wd => by simp [RoundTrip], fun hl => ?_,
    fun e hl wd => rfl⟩
  simp [RoundTrip]

/-- Claim C5: the origin key is `scheme://host` with the host lower-cased,
with `:port` appended exactly when the explicit port, after stripping
leading zeros, is non-empty and differs from the scheme's conventional
default (80 for http, 443 for https). -/
theorem origin_spec (u : URL) :
    Origin u =
      (if u.port.dropWhile (fun c => c == '0') ≠ "" ∧
          ¬ (u.scheme = "http" ∧ u.port.dropWhile (fun c => c == '0') = "80") ∧
          ¬ (u.scheme = "https" ∧ u.port.dropWhile (fun c => c == '0') = "443")
        then u.scheme ++ "://" ++ u.hostname.toLower ++ ":" ++
          u.port.dropWhile (fun c => c == '0')
        else u.scheme ++ "://" ++ u.hostname.toLower) := by
  unfold Origin defaultPortFor
  by_cases hp : u.port.dropWhile (fun c => c == '0') = ""
  · simp [hp]
  · by_cases h1 : u.scheme = "http"
    · by_cases h80 : u.port.dropWhile (fun c => c == '0') = "80"
      · simp [hp, h1, h80]
      · simp [hp, h1, h80]
    · by_cases h2 : u.scheme = "https"
      · by_cases h443 : u.port.dropWhile (fun c => c == '0') = "443"
        · simp [hp, h1, h2, h443]
        · simp [hp, h1, h2, h443]
      · simp [hp, h1, h2]

/-- Claim C3 counterexample: key 0 has no entry in the empty map, yet
`CompareAndSwap 0 nil (some 5)` installs the new value and returns `true`,
where the claim demands `false` and an unchanged map. -/
theorem compareAndSwap_absent_counterexample :
    (SyncMap.CompareAndSwap (SyncMap.New : SyncMap Nat (Option Nat)) 0 none
      (some 5)).1 = true ∧
    (SyncMap.CompareAndSwap (SyncMap.New : SyncMap Nat (Option Nat)) 0 none
      (some 5)).2 ≠ SyncMap.New := by
  decide

/-- Claim C3 (amended): `CompareAndSwap k old new` compares `old` with the
stored value for `k`, taking the zero value of `V` when `k` has no entry;
on equality it installs `new` under `k` and returns `true` — so an absent
key does swap when `old` equals the zero value — and otherwise it returns
`false` and leaves the map unchanged. -/
theorem compareAndSwap_amended_spec {K V : Type} [DecidableEq K] [DecidableEq V]
    [Inhabited V] (m : SyncMap K V) (k : K) (old nv : V) :
    ((m.CompareAndSwap k old nv).1 = true ↔ (m.Load k).getD default = old) ∧
    ((m.Load k).getD default = old →
      m.CompareAndSwap k old nv = (true, ⟨SyncMap.insertKey m.entries k nv⟩)) ∧
    ((m.Load k).getD default ≠ old → m.CompareAndSwap k old nv = (false, m)) := by
  unfold SyncMap.CompareAndSwap
  by_cases h : (m.Load k).getD default = old
  · have h2 : (SyncMap.lookupKey m.entries k).getD default = old := h
    simp [h, h2]
  · simp [h]

/-- Closed instance of `compareAndSwap_amended_spec` at concrete inputs. -/
theorem compareAndSwap_amended_witness :
    (SyncMap.mk [(1, 5)] : SyncMap Nat Nat).Load 1 = some 5 ∧
    (SyncMap.mk [(1, 5)] : SyncMap Nat Nat).CompareAndSwap 1 5 9 =
      (true, SyncMap.mk [(1, 9)]) ∧
    (SyncMap.mk [(1, 5)] : SyncMap Nat Nat).CompareAndSwap 1 4 9 =
      (false, SyncMap.mk [(1, 5)]) := by
  refine ⟨by decide, ?_, ?_⟩
  · have h := (compareAndSwap_amended_spec (SyncMap.mk [(1, 5)]) 1 5 9).2.1
      (by decide)
    simpa [SyncMap.insertKey] using h
  · exact (compareAndSwap_amended_spec (SyncMap.mk [(1, 5)]) 1 4 9).2.2 (by decide)

/-- Claim C8: `SetLimiterDefaults` changes only the stored defaults — which
`LimiterDefaults` subsequently returns and which matter only when a limiter
is constructed for an unseen key — leaving the limiters map, every limiter
registered in it, and the key function unchanged; `Limiter` for an
already-seen key is unaffected by the new defaults. -/
theorem setLimiterDefaults_frame_spec {Req K L : Type} [DecidableEq K]
    (t : PerKeyRoundTripper Req K L) (l : L) (b : Int) :
    (t.SetLimiterDefaults l b).limiters = t.limiters ∧
    (t.SetLimiterDefaults l b).keyFunc = t.keyFunc ∧
    (t.SetLimiterDefaults l b).LimiterDefaults = (l, b) ∧
    (∀ k a, t.limiters.Load k = some a →
      (t.SetLimiterDefaults l b).limiters.Load k = some a) ∧
    (∀ req lim, t.limiters.Load (t.Key req) = some lim →
      ((t.SetLimiterDefaults l b).Limiter req).1 = lim ∧
      ((t.SetLimiterDefaults l b).Limiter req).2 = t.SetLimiterDefaults l b ∧
      (t.Limiter req).1 = lim) := by
  refine ⟨rfl, rfl, rfl, fun k a h => h, fun req lim h => ?_⟩
  have h2 : (t.SetLimiterDefaults l b).limiters.Load
      ((t.SetLimiterDefaults l b).Key req) = some lim := h
  refine ⟨?_, ?_, ?_⟩
  · simp [PerKeyRoundTripper.Limiter, loadOrStore_eq_of_some _ _ _ _ h2]
  · simp [PerKeyRoundTripper.Limiter, loadOrStore_eq_of_some _ _ _ _ h2]
  · simp [PerKeyRoundTripper.Limiter, loadOrStore_eq_of_some _ _ _ _ h]

/-- Closed instance of `setLimiterDefaults_frame_spec` at concrete inputs. -/
theorem setLimiterDefaults_frame_witness :
    (PerKeyRoundTripper.mk 1 2 (fun r => r)
        (SyncMap.mk [(5, RateLimiter.mk 1 2)]) :
      PerKeyRoundTripper Nat Nat Nat).limiters.Load 5 = some (RateLimiter.mk 1 2) ∧
    ((PerKeyRoundTripper.mk 1 2 (fun r => r)
        (SyncMap.mk [(5, RateLimiter.mk 1 2)]) :
      PerKeyRoundTripper Nat Nat Nat).SetLimiterDefaults 7 8).limiters =
      SyncMap.mk [(5, RateLimiter.mk 1 2)] ∧
    ((PerKeyRoundTripper.mk 1 2 (fun r => r)
        (SyncMap.mk [(5, RateLimiter.mk 1 2)]) :
      PerKeyRoundTripper Nat Nat Nat).SetLimiterDefaults 7 8).LimiterDefaults =
      (7, 8) ∧
    (((PerKeyRoundTripper.mk 1 2 (fun r => r)
        (SyncMap.mk [(5, RateLimiter.mk 1 2)]) :
      PerKeyRoundTripper Nat Nat Nat).SetLimiterDefaults 7 8).Limiter 5).1 =
      RateLimiter.mk 1 2 := by
  have h := setLimiterDefaults_frame_spec
    (PerKeyRoundTripper.mk 1 2 (fun r => r)
      (SyncMap.mk [(5, RateLimiter.mk 1 2)]) : PerKeyRoundTripper Nat Nat Nat)
    7 8
  exact ⟨by decide, h.1, h.2.2.1, (h.2.2.2.2 5 (RateLimiter.mk 1 2) (by decide)).1⟩

/-- Claim C1: once a get-or-create has returned `a` for key `k`, a
subsequent `LoadOrStore` for `k` returns the same `a` and leaves the map
unchanged; every registry operation that does not explicitly overwrite or
remove `k` (nor clear the registry) preserves the binding as seen by
`Load`; and `Limiter` for an already-registered request key returns the
registered limiter and leaves the state unchanged. -/
theorem single_instance_per_key_spec {K V Req L : Type}
    [DecidableEq K] [DecidableEq V] [Inhabited V]
    (m : SyncMap K V) (k : K) (a v : V)
    (t : PerKeyRoundTripper Req K L) (req : Req) (lim : RateLimiter L)
    (h : m.Load k = some a) (ht : t.limiters.Load (t.Key req) = some lim) :
    m.LoadOrStore k v = (a, true, m) ∧
    (∀ op : MapOp K V, op.mutatesKey k = false → (op.step m).Load k = some a) ∧
    (t.Limiter req).1 = lim ∧ (t.Limiter req).2 = t := by
  refine ⟨loadOrStore_eq_of_some m k v a h, ?_, ?_, ?_⟩
  · intro op hop
    cases op with
    | loadOp k2 => exact h
    | storeOp k2 v2 =>
      simp only [MapOp.mutatesKey, decide_eq_false_iff_not] at hop
      have hne : ¬ k = k2 := fun hc => hop hc.symm
      simpa [MapOp.step, SyncMap.Store, SyncMap.Swap, SyncMap.Load,
        lookupKey_insertKey, hne] using h
    | swapOp k2 v2 =>
      simp only [MapOp.mutatesKey, decide_eq_false_iff_not] at hop
      have hne : ¬ k = k2 := fun hc => hop hc.symm
      simpa [MapOp.step, SyncMap.Swap, SyncMap.Load, lookupKey_insertKey, hne]
        using h
    | deleteOp k2 =>
      simp only [MapOp.mutatesKey, decide_eq_false_iff_not] at hop
      have hne : ¬ k = k2 := fun hc => hop hc.symm
      cases hl : m.Load k2 with
      | none => simpa [MapOp.step, SyncMap.Delete, SyncMap.LoadAndDelete, hl] using h
      | some b =>
        have hl2 : SyncMap.lookupKey m.entries k2 = some b := hl
        simpa [MapOp.step, SyncMap.Delete, SyncMap.LoadAndDelete, hl, hl2,
          SyncMap.Load, lookupKey_eraseKey, hne] using h
    | loadAndDeleteOp k2 =>
      simp only [MapOp.mutatesKey, decide_eq_false_iff_not] at hop
      have hne : ¬ k = k2 := fun hc => hop hc.symm
      cases hl : m.Load k2 with
      | none => simpa [MapOp.step, SyncMap.LoadAndDelete, hl] using h
      | some b =>
        have hl2 : SyncMap.lookupKey m.entries k2 = some b := hl
        simpa [MapOp.step, SyncMap.LoadAndDelete, hl, hl2, SyncMap.Load,
          lookupKey_eraseKey, hne] using h
    | loadOrStoreOp k2 v2 =>
      cases hl : m.Load k2 with
      | some b => simpa [MapOp.step, loadOrStore_eq_of_some m k2 v2 b hl] using h
      | none =>
        have hne : ¬ k = k2 := by
          intro hc
          rw [hc, hl] at h
          cases h
        simpa [MapOp.step, loadOrStore_eq_of_none m k2 v2 hl, SyncMap.Load,
          lookupKey_insertKey, hne] using h
    | compareAndSwapOp k2 old nv =>
      simp only [MapOp.mutatesKey, decide_eq_false_iff_not] at hop
      have hne : ¬ k = k2 := fun hc => hop hc.symm
      by_cases hc : (m.Load k2).getD default = old
      · have hc2 : (SyncMap.lookupKey m.entries k2).getD default = old := hc
        simpa [MapOp.step, SyncMap.CompareAndSwap, hc, hc2, SyncMap.Load,
          lookupKey_insertKey, hne] using h
      · simpa [MapOp.step, SyncMap.CompareAndSwap, hc] using h
    | compareAndDeleteOp k2 old =>
      simp only [MapOp.mutatesKey, decide_eq_false_iff_not] at hop
      have hne : ¬ k = k2 := fun hc => hop hc.symm
      cases hl : m.Load k2 with
      | none => simpa [MapOp.step, SyncMap.CompareAndDelete, hl] using h
      | some b =>
        have hl2 : SyncMap.lookupKey m.entries k2 = some b := hl
        by_cases hb : b = old
        · simpa [MapOp.step, SyncMap.CompareAndDelete, hl, hl2, hb,
            SyncMap.Load, lookupKey_eraseKey, hne] using h
        · simpa [MapOp.step, SyncMap.CompareAndDelete, hl, hl2, hb] using h
    | clearOp => simp [MapOp.mutatesKey] at hop
  · simp [PerKeyRoundTripper.Limiter, loadOrStore_eq_of_some _ _ _ _ ht]
  · simp [PerKeyRoundTripper.Limiter, loadOrStore_eq_of_some _ _ _ _ ht]

/-- Closed instance of `single_instance_per_key_spec` at concrete inputs. -/
theorem single_instance_per_key_witness :
    (SyncMap.mk [(1, 3)] : SyncMap Nat Nat).Load 1 = some 3 ∧
    (SyncMap.mk [(1, 3)] : SyncMap Nat Nat).LoadOrStore 1 7 =
      (3, true, SyncMap.mk [(1, 3)]) ∧
    ((MapOp.storeOp 2 9 : MapOp Nat Nat).step (SyncMap.mk [(1, 3)])).Load 1 =
      some 3 ∧
    ((PerKeyRoundTripper.mk 1 2 (fun r => r)
        (SyncMap.mk [(5, RateLimiter.mk 1 2)]) :
      PerKeyRoundTripper Nat Nat Nat).Limiter 5).1 = RateLimiter.mk 1 2 := by
  have h := single_instance_per_key_spec (SyncMap.mk [(1, 3)]) 1 3 7
    (PerKeyRoundTripper.mk 1 2 (fun r => r)
      (SyncMap.mk [(5, RateLimiter.mk 1 2)]) : PerKeyRoundTripper Nat Nat Nat)
    5 (RateLimiter.mk 1 2) (by decide) (by decide)
  exact ⟨by decide, h.1, h.2.1 (MapOp.storeOp 2 9) (by decide), h.2.2.1⟩

/-- Claim C6: on a well-formed map, `Range` visits each key at most once;
with a never-stopping visitor, each present key is visited exactly once
with its value; a key whose per-step read no longer resolves (removed
before being reached) is never visited; and no visit follows one on which
the visitor returned the stop signal. -/
theorem range_spec {K V : Type} [DecidableEq K]
    (m : SyncMap K V) (f : K → V → Bool) (loadf : K → Option V) (k : K)
    (hwf : m.WF) (hk : loadf k = none) :
    ((m.Range f).map Prod.fst).Nodup ∧
    (∀ k2 v2, (k2, v2) ∈ m.Range (fun _ _ => true) ↔ m.Load k2 = some v2) ∧
    k ∉ (SyncMap.rangeVisits loadf f m.Keys).map Prod.fst ∧
    (∀ p ∈ (m.Range f).dropLast, f p.1 p.2 = true) := by
  refine ⟨?_, ?_, not_mem_rangeVisits_of_none loadf f k hk m.Keys,
    rangeVisits_dropLast_true _ _ _⟩
  · exact (rangeVisits_map_fst_sublist m.Load f m.Keys).nodup hwf
  · intro k2 v2
    rw [SyncMap.Range, mem_rangeVisits_true]
    constructor
    · rintro ⟨h1, _⟩
      exact h1
    · intro h1
      exact ⟨h1, mem_map_fst_of_lookupKey m.entries k2 v2 h1⟩

/-- Closed instance of `range_spec` at concrete inputs. -/
theorem range_spec_witness :
    (SyncMap.mk [(1, 10), (2, 20)] : SyncMap Nat Nat).WF ∧
    (((SyncMap.mk [(1, 10), (2, 20)] : SyncMap Nat Nat).Range
      (fun _ _ => true)).map Prod.fst).Nodup ∧
    ((1, 10) ∈ (SyncMap.mk [(1, 10), (2, 20)] : SyncMap Nat Nat).Range
      (fun _ _ => true) ↔
      (SyncMap.mk [(1, 10), (2, 20)] : SyncMap Nat Nat).Load 1 = some 10) ∧
    3 ∉ (SyncMap.rangeVisits (fun _ => (none : Option Nat)) (fun _ _ => true)
      (SyncMap.mk [(1, 10), (2, 20)] : SyncMap Nat Nat).Keys).map Prod.fst := by
  have h := range_spec (SyncMap.mk [(1, 10), (2, 20)] : SyncMap Nat Nat)
    (fun _ _ => true) (fun _ => (none : Option Nat)) 3 (by decide) rfl
  exact ⟨by decide, h.1, h.2.1 1 10, h.2.2.1⟩

end Ratelim
